import Mathlib

/-!
Shallow embedding of the better-notes ingestion-and-retrieval engine
(`src/index/indexer.ts` and `src/notes/search.ts`) for checking the repository
specification.  Machine integers do not occur; all counts are `Nat`.  Wall-clock
timestamps are passed in as explicit `String`/epoch-day parameters (the source
reads `new Date()`); calendar arithmetic is day-granular at UTC.
-/

namespace BetterNotes

/-! ### Character and string primitives (JS semantics, ASCII range) -/

/-- JS `\s` for the ASCII range: space and the control whitespace characters. -/
def wsChar (c : Char) : Bool := c = ' ' || (9 ≤ c.toNat && c.toNat ≤ 13)

/-- JS `\w`: ASCII letters, digits and underscore. -/
def wordChar (c : Char) : Bool := c.isAlpha || c.isDigit || c = '_'

/-- Case-insensitive character comparison, as JS `i`-flag matching. -/
def ciEq (a b : Char) : Bool := a.toLower = b.toLower

/-- `String.toLowerCase` of JS restricted to ASCII case mapping. -/
def lowerList (cs : List Char) : List Char := cs.map Char.toLower

def lowerStr (s : String) : String := String.mk (lowerList s.toList)

/-- JS `String.prototype.trim`. -/
def jsTrim (cs : List Char) : List Char :=
  ((cs.dropWhile wsChar).reverse.dropWhile wsChar).reverse

/-- First index at which `needle` occurs in `hay` (JS `indexOf`), if any. -/
def indexOfSubAux (needle : List Char) : List Char → Nat → Option Nat
  | [], i => if needle.isEmpty then some i else none
  | c :: cs, i =>
    if needle.isPrefixOf (c :: cs) then some i else indexOfSubAux needle cs (i + 1)

def indexOfSub (needle hay : List Char) : Option Nat := indexOfSubAux needle hay 0

/-- Whether `needle` occurs contiguously inside `hay`. -/
def containsSub (needle : List Char) : List Char → Bool
  | [] => needle.isEmpty
  | c :: cs => needle.isPrefixOf (c :: cs) || containsSub needle cs

def findCharFromAux (ch : Char) : List Char → Nat → Option Nat
  | [], _ => none
  | c :: cs, i => if c = ch then some i else findCharFromAux ch cs (i + 1)

/-- JS `indexOf(ch, start)`: first index `≥ start` holding `ch`. -/
def indexOfCharFrom (ch : Char) (start : Nat) (cs : List Char) : Option Nat :=
  findCharFromAux ch (cs.drop start) start

def lastIdxAux (ch : Char) : List Char → Nat → Option Nat → Option Nat
  | [], _, acc => acc
  | c :: cs, i, acc => lastIdxAux ch cs (i + 1) (if c = ch then some i else acc)

/-- JS `lastIndexOf(ch, pos)`: largest index `≤ pos` holding `ch`. -/
def lastIndexOfCharUpto (ch : Char) (pos : Nat) (cs : List Char) : Option Nat :=
  lastIdxAux ch (cs.take (pos + 1)) 0 none

/-- Split on runs of whitespace, keeping the non-empty runs
(JS `split(/\s+/)` composed with the later non-trivial length filter). -/
def splitWsAux : List Char → List Char → List (List Char)
  | [], acc => if acc.isEmpty then [] else [acc.reverse]
  | c :: cs, acc =>
    if wsChar c then
      (if acc.isEmpty then splitWsAux cs [] else acc.reverse :: splitWsAux cs [])
    else splitWsAux cs (c :: acc)

def splitWs (cs : List Char) : List (List Char) := splitWsAux cs []

def splitCommaAux : List Char → List Char → List String
  | [], acc => [String.mk acc.reverse]
  | c :: cs, acc =>
    if c = ',' then String.mk acc.reverse :: splitCommaAux cs []
    else splitCommaAux cs (c :: acc)

/-- JS `split(",")` followed by `filter(Boolean)`. -/
def splitCommaNE (s : String) : List String :=
  (splitCommaAux s.toList []).filter (fun t => t ≠ "")

/-- JS `Array.prototype.join(sep)`. -/
def joinSep (sep : String) : List String → String
  | [] => ""
  | [x] => x
  | x :: xs => x ++ sep ++ joinSep sep xs

/-- Lexicographic order on codepoints (SQLite's memcmp order on TEXT values). -/
def listLt : List Char → List Char → Bool
  | [], [] => false
  | [], _ :: _ => true
  | _ :: _, [] => false
  | a :: as, b :: bs =>
    if a.toNat < b.toNat then true
    else if b.toNat < a.toNat then false
    else listLt as bs

def strLt (a b : String) : Bool := listLt a.toList b.toList

def strLe (a b : String) : Bool := strLt a b || a = b

/-- Decimal digits to a number, as JS `parseInt(d, 10)` on an all-digit string. -/
def digitsToNat (ds : List Char) : Nat := ds.foldl (fun acc c => acc * 10 + (c.toNat - 48)) 0

/-! ### Day-granular calendar (JS `Date` at UTC)

`new Date()` is modelled by an epoch-day number (days since 1970-01-01);
`setDate(getDate() - n)` is subtraction of days; `toISOString().split("T")[0]`
is `formatEpochDay`. -/

/-- Gregorian civil date from days since 1970-01-01 (year, month, day). -/
def civilFromDays (z0 : Nat) : Nat × Nat × Nat :=
  let z := z0 + 719468
  let era := z / 146097
  let doe := z % 146097
  let yoe := (doe - doe / 1460 + doe / 36524 - doe / 146096) / 365
  let y0 := yoe + era * 400
  let doy := doe - (365 * yoe + yoe / 4 - yoe / 100)
  let mp := (5 * doy + 2) / 153
  let d := doy - (153 * mp + 2) / 5 + 1
  let m := if mp < 10 then mp + 3 else mp - 9
  (if m ≤ 2 then y0 + 1 else y0, m, d)

def padZeros (width : Nat) (n : Nat) : String :=
  let s := toString n
  String.mk (List.replicate (width - s.length) '0') ++ s

/-- `formatDate` of `search.ts`: the `YYYY-MM-DD` part of `toISOString()`. -/
def formatEpochDay (d : Nat) : String :=
  let c := civilFromDays d
  padZeros 4 c.1 ++ "-" ++ padZeros 2 c.2.1 ++ "-" ++ padZeros 2 c.2.2

/-! ### Data model (`indexer.ts`) -/

structure NoteFrontmatter where
  title : String
  category : String
  tags : List String
  created : String
  updated : String
  mentions : List String
  deriving DecidableEq

structure Note where
  id : String
  filePath : String
  date : String
  frontmatter : NoteFrontmatter
  content : String
  deriving DecidableEq

/-- A row of the `notes` table. -/
structure IndexedNote where
  id : String
  file_path : String
  date : String
  title : String
  category : String
  tags : String
  mentions : String
  content : String
  created_at : String
  updated_at : String
  indexed_at : String
  deriving DecidableEq

/-- A row of the `entities` table. -/
structure EntityRow where
  id : Nat
  name : String
  type : String
  first_seen : String
  last_seen : String
  mention_count : Nat
  deriving DecidableEq

/-- A document held by the MiniSearch full-text index. -/
structure MiniDoc where
  id : String
  title : String
  content : String
  tags : String
  mentions : String
  date : String
  category : String
  filePath : String
  deriving DecidableEq

structure SearchResult where
  id : String
  filePath : String
  date : String
  title : String
  category : String
  tags : List String
  mentions : List String
  snippet : String
  rank : Nat
  deriving DecidableEq

structure SearchConfig where
  enableEntityExtraction : Bool
  maxResults : Nat
  deriving DecidableEq

structure Config where
  search : SearchConfig
  deriving DecidableEq

/-- The state owned by an `Indexer`: the three sqlite tables (as lists of rows in
rowid order), the AUTOINCREMENT counter of `entities`, the MiniSearch documents
and the `noteContents` map. -/
structure IndexerState where
  notes : List IndexedNote
  entities : List EntityRow
  noteEntities : List (String × Nat)
  nextEntityId : Nat
  miniDocs : List MiniDoc
  noteContents : List (String × String)
  deriving DecidableEq

def emptyState : IndexerState :=
  { notes := [], entities := [], noteEntities := [], nextEntityId := 1,
    miniDocs := [], noteContents := [] }

/-- `Map.set` on the `noteContents` association list. -/
def setAssoc (k v : String) : List (String × String) → List (String × String)
  | [] => [(k, v)]
  | (k', v') :: rest => if k' = k then (k, v) :: rest else (k', v') :: setAssoc k v rest

/-! ### Mutations (`indexer.ts`) -/

/-- The `notes` row written by `indexNote`; `now` stands for the
`new Date().toISOString()` read. -/
def noteRow (note : Note) (now : String) : IndexedNote :=
  { id := note.id, file_path := note.filePath, date := note.date,
    title := note.frontmatter.title, category := note.frontmatter.category,
    tags := joinSep "," note.frontmatter.tags,
    mentions := joinSep "," note.frontmatter.mentions,
    content := note.content, created_at := note.frontmatter.created,
    updated_at := note.frontmatter.updated, indexed_at := now }

def miniDocOf (note : Note) : MiniDoc :=
  { id := note.id, title := note.frontmatter.title, content := note.content,
    tags := joinSep " " note.frontmatter.tags,
    mentions := joinSep " " note.frontmatter.mentions,
    date := note.date, category := note.frontmatter.category, filePath := note.filePath }

/-- One iteration of the `indexEntities` loop: look up the entity by lowercased
name, update or insert it, then `INSERT OR IGNORE` the note-entity link. -/
def indexEntityMention (now noteId : String) (s : IndexerState) (mention : String) :
    IndexerState :=
  match s.entities.find? (fun e => decide (e.name = lowerStr mention ∧ e.type = "person")) with
  | some e =>
    let s := { s with entities := s.entities.map (fun e' =>
        if e'.id = e.id then { e' with last_seen := now, mention_count := e'.mention_count + 1 }
        else e') }
    if (noteId, e.id) ∈ s.noteEntities then s
    else { s with noteEntities := s.noteEntities ++ [(noteId, e.id)] }
  | none =>
    let eid := s.nextEntityId
    let s := { s with
      entities := s.entities ++ [{ id := eid, name := lowerStr mention, type := "person",
                                   first_seen := now, last_seen := now, mention_count := 1 }],
      nextEntityId := eid + 1 }
    if (noteId, eid) ∈ s.noteEntities then s
    else { s with noteEntities := s.noteEntities ++ [(noteId, eid)] }

def indexEntities (now : String) (note : Note) (s : IndexerState) : IndexerState :=
  note.frontmatter.mentions.foldl (indexEntityMention now note.id) s

/-- `Indexer.indexNote` (the `upsert` of the spec): delete any row with the same
id, insert the fresh row, refresh the MiniSearch document and stored content,
then refresh the entity table when extraction is enabled. -/
def indexNote (cfg : Config) (now : String) (note : Note) (s : IndexerState) : IndexerState :=
  let s := { s with
    notes := s.notes.filter (fun r => decide (r.id ≠ note.id)) ++ [noteRow note now],
    miniDocs := s.miniDocs.filter (fun d => decide (d.id ≠ note.id)) ++ [miniDocOf note],
    noteContents := setAssoc note.id note.content s.noteContents }
  if cfg.search.enableEntityExtraction then indexEntities now note s else s

/-- `Indexer.removeNote` (the `remove` of the spec). -/
def removeNote (noteId : String) (s : IndexerState) : IndexerState :=
  { s with
    noteEntities := s.noteEntities.filter (fun l => decide (l.1 ≠ noteId)),
    notes := s.notes.filter (fun r => decide (r.id ≠ noteId)),
    miniDocs := s.miniDocs.filter (fun d => decide (d.id ≠ noteId)),
    noteContents := s.noteContents.filter (fun p => decide (p.1 ≠ noteId)) }

/-! ### Snippet extraction (`Indexer.extractSnippet`) -/

/-- The query terms considered for a snippet: whitespace-split tokens of the
lowercased query that are longer than 2 characters. -/
def snippetTerms (query : List Char) : List (List Char) :=
  (splitWs (lowerList query)).filter (fun t => 2 < t.length)

/-- First occurrence of any term (the minimum over the terms' first positions),
as computed by the `bestPos` loop. -/
def bestMatchPos (lowerContent : List Char) (terms : List (List Char)) : Option Nat :=
  terms.foldl (fun acc t =>
    match indexOfSub t lowerContent with
    | none => acc
    | some p => match acc with
      | none => some p
      | some b => if p < b then some p else some b) none

/-- The `start` boundary of the snippet window: `max(0, bestPos - halfLength)`,
moved past the first space before the match when one exists. -/
def snippetStart (cs : List Char) (bestPos halfLength : Nat) : Nat :=
  let start0 := bestPos - halfLength
  if 0 < start0 then
    match indexOfCharFrom ' ' start0 cs with
    | some sp => if sp < bestPos then sp + 1 else start0
    | none => start0
  else start0

/-- The `end` boundary of the snippet window: `min(length, bestPos + halfLength)`,
moved back to the last space after the match when one exists. -/
def snippetEnd (cs : List Char) (bestPos halfLength : Nat) : Nat :=
  let end0 := min cs.length (bestPos + halfLength)
  if end0 < cs.length then
    match lastIndexOfCharUpto ' ' end0 cs with
    | some sp => if bestPos < sp then sp else end0
    | none => end0
  else end0

/-- The `[start, end)` character window around a match, after the word-boundary
adjustments of `extractSnippet`. -/
def snippetWindow (cs : List Char) (bestPos snippetLength : Nat) : Nat × Nat :=
  (snippetStart cs bestPos (snippetLength / 2), snippetEnd cs bestPos (snippetLength / 2))

/-- `Indexer.extractSnippet`: a window of `snippetLength` characters of the body
centred on the first occurrence of any query term, adjusted to word boundaries,
with an ellipsis on each truncated side; the leading window when no term occurs. -/
def extractSnippet (content query : String) (snippetLength : Nat) : String :=
  let cs := content.toList
  let lowerC := lowerList cs
  match bestMatchPos lowerC (snippetTerms query.toList) with
  | none =>
    String.mk (cs.take snippetLength) ++ (if snippetLength < cs.length then "..." else "")
  | some bestPos =>
    let w := snippetWindow cs bestPos snippetLength
    let body := String.mk ((cs.drop w.1).take (w.2 - w.1))
    let body := if 0 < w.1 then "..." ++ body else body
    if w.2 < cs.length then body ++ "..." else body

/-! ### Query paths (`indexer.ts`) -/

/-- Stable descending insertion by `date` (SQL `ORDER BY n.date DESC` with rows
visited in rowid order). -/
def insertByDateDesc (r : IndexedNote) : List IndexedNote → List IndexedNote
  | [] => [r]
  | x :: xs => if strLt r.date x.date then x :: insertByDateDesc r xs else r :: x :: xs

def sortByDateDesc (l : List IndexedNote) : List IndexedNote := l.foldr insertByDateDesc []

/-- View of a `notes` row as a `SearchResult` with the given snippet. -/
def rowResult (r : IndexedNote) (snippet : String) : SearchResult :=
  { id := r.id, filePath := r.file_path, date := r.date, title := r.title,
    category := r.category, tags := splitCommaNE r.tags,
    mentions := splitCommaNE r.mentions, snippet := snippet, rank := 0 }

/-- `Indexer.searchByPerson`: `mentions LIKE %name.toLowerCase()%` (SQLite `LIKE`
is ASCII case-insensitive), newest first, capped at `limit`, snippet extracted
around the name. -/
def searchByPerson (name : String) (limit : Nat) (s : IndexerState) : List SearchResult :=
  let rows := sortByDateDesc (s.notes.filter
    (fun n => containsSub (lowerList name.toList) (lowerList n.mentions.toList)))
  (rows.take limit).map (fun n => rowResult n (extractSnippet n.content name 200))

/-- `Indexer.searchByTag`: `tags LIKE %tag%`, newest first, snippet around the tag. -/
def searchByTag (tag : String) (limit : Nat) (s : IndexerState) : List SearchResult :=
  let rows := sortByDateDesc (s.notes.filter
    (fun n => containsSub (lowerList tag.toList) (lowerList n.tags.toList)))
  (rows.take limit).map (fun n => rowResult n (extractSnippet n.content tag 200))

/-- `Indexer.searchByCategory`: exact `category` match, newest first, snippet is
the leading 200 characters of the body. -/
def searchByCategory (category : String) (limit : Nat) (s : IndexerState) : List SearchResult :=
  let rows := sortByDateDesc (s.notes.filter (fun n => decide (n.category = category)))
  (rows.take limit).map (fun n => rowResult n (String.mk (n.content.toList.take 200)))

/-- `Indexer.searchByDateRange`: `startDate ≤ date ≤ endDate` (SQLite TEXT
comparison), newest first, snippet is the leading 200 characters of the body. -/
def searchByDateRange (startDate endDate : String) (limit : Nat) (s : IndexerState) :
    List SearchResult :=
  let rows := sortByDateDesc (s.notes.filter
    (fun n => strLe startDate n.date && strLe n.date endDate))
  (rows.take limit).map (fun n => rowResult n (String.mk (n.content.toList.take 200)))

/-- Modelled from the spec: `Indexer.regenerateSnippets` is called by
`SearchEngine.search` but its definition is absent from the provided sources.
Per the spec (§4.3, §4.5) it regenerates the snippet of every result from the
stored body (`noteContents`, empty when missing, as `Indexer.search` does)
around the given primary term, leaving every other attribute unchanged. -/
def regenerateSnippets (s : IndexerState) (results : List SearchResult) (term : String) :
    List SearchResult :=
  results.map (fun r =>
    { r with snippet := extractSnippet ((s.noteContents.lookup r.id).getD "") term 200 })

/-- `MAX(indexed_at)` over the `notes` table. -/
def maxIndexedAt (l : List IndexedNote) : Option String :=
  l.foldl (fun acc r => match acc with
    | none => some r.indexed_at
    | some m => some (if strLe m r.indexed_at then r.indexed_at else m)) none

/-- `Indexer.getStats`: note count, entity count, most recent `indexed_at`. -/
def getStats (s : IndexerState) : Nat × Nat × Option String :=
  (s.notes.length, s.entities.length, maxIndexedAt s.notes)

/-! ### The combined search (`SearchEngine.search`, `search.ts`)

The free-text path `Indexer.search` delegates ranking to the external MiniSearch
library; the pipeline below therefore takes the indexer's text search as an
opaque function argument `textSearch`, exactly as `search.ts` treats it. -/

structure ParsedQuery where
  originalQuery : String
  text : Option String
  person : Option String
  tag : Option String
  category : Option String
  startDate : Option String
  endDate : Option String
  limit : Option Nat
  deriving DecidableEq

/-- JS truthiness of an optional string field (`undefined` and `""` are falsy). -/
def optTruthy : Option String → Bool
  | none => false
  | some s => decide (s ≠ "")

/-- `parsed.limit || this.config.search.maxResults` (`0` is falsy in JS). -/
def effLimit (cfg : Config) (q : ParsedQuery) : Nat :=
  match q.limit with
  | some n => if n = 0 then cfg.search.maxResults else n
  | none => cfg.search.maxResults

/-- `intersectResults` of `search.ts`: keep the left-hand entries whose id occurs
on the right (`bIds.has(r.id)`). -/
def intersectResults (a b : List SearchResult) : List SearchResult :=
  a.filter (fun r => decide (r.id ∈ b.map (fun x => x.id)))

/-- The accumulation step used for each predicate:
`results.length > 0 ? intersectResults(results, next) : next`. -/
def combineStep (results next : List SearchResult) : List SearchResult :=
  if 0 < results.length then intersectResults results next else next

/-- `parsed.text || parsed.person || parsed.tag`, as used for the snippet term. -/
def snippetTermOf (q : ParsedQuery) : Option String :=
  if optTruthy q.text then q.text
  else if optTruthy q.person then q.person
  else if optTruthy q.tag then q.tag
  else none

/-- The per-predicate evaluation and merging stage of `SearchEngine.search`
(lines 159-187): date range, then person, then tag, then category, then free
text, each capped at the effective limit. -/
def mergedResults (cfg : Config) (textSearch : String → Nat → List SearchResult)
    (s : IndexerState) (q : ParsedQuery) : List SearchResult :=
  let limit := effLimit cfg q
  let results : List SearchResult := []
  let results := if optTruthy q.startDate && optTruthy q.endDate then
      searchByDateRange (q.startDate.getD "") (q.endDate.getD "") limit s
    else results
  let results := if optTruthy q.person then
      combineStep results (searchByPerson (q.person.getD "") limit s)
    else results
  let results := if optTruthy q.tag then
      combineStep results (searchByTag (q.tag.getD "") limit s)
    else results
  let results := if optTruthy q.category then
      combineStep results (searchByCategory (q.category.getD "") limit s)
    else results
  if optTruthy q.text then combineStep results (textSearch (q.text.getD "") limit)
  else results

/-- The "recent documents" default view: every document of the last 7 days. -/
def recentView (today limit : Nat) (s : IndexerState) : List SearchResult :=
  searchByDateRange (formatEpochDay (today - 7)) (formatEpochDay today) limit s

/-- The default-view substitution stage (lines 189-195 of `search.ts`). -/
def afterRecent (cfg : Config) (today : Nat) (textSearch : String → Nat → List SearchResult)
    (s : IndexerState) (q : ParsedQuery) : List SearchResult :=
  if decide ((mergedResults cfg textSearch s q).length = 0) && !optTruthy q.text
      && !optTruthy q.person && !optTruthy q.tag && !optTruthy q.category then
    recentView today (effLimit cfg q) s
  else mergedResults cfg textSearch s q

/-- The snippet-regeneration stage (lines 197-201 of `search.ts`). -/
def snippetStage (s : IndexerState) (q : ParsedQuery) (results : List SearchResult) :
    List SearchResult :=
  match snippetTermOf q with
  | some t => if 0 < results.length then regenerateSnippets s results t else results
  | none => results

/-- Everything `SearchEngine.search` does before the final `slice(0, limit)`. -/
def beforeCut (cfg : Config) (today : Nat) (textSearch : String → Nat → List SearchResult)
    (s : IndexerState) (q : ParsedQuery) : List SearchResult :=
  snippetStage s q (afterRecent cfg today textSearch s q)

/-- `SearchEngine.search` on an already-parsed query, written as the source's
sequential statement list. -/
def searchCombined (cfg : Config) (today : Nat)
    (textSearch : String → Nat → List SearchResult) (s : IndexerState) (q : ParsedQuery) :
    List SearchResult :=
  let limit := effLimit cfg q
  let results : List SearchResult := []
  let results := if optTruthy q.startDate && optTruthy q.endDate then
      searchByDateRange (q.startDate.getD "") (q.endDate.getD "") limit s
    else results
  let results := if optTruthy q.person then
      combineStep results (searchByPerson (q.person.getD "") limit s)
    else results
  let results := if optTruthy q.tag then
      combineStep results (searchByTag (q.tag.getD "") limit s)
    else results
  let results := if optTruthy q.category then
      combineStep results (searchByCategory (q.category.getD "") limit s)
    else results
  let results := if optTruthy q.text then
      combineStep results (textSearch (q.text.getD "") limit)
    else results
  let results := if decide (results.length = 0) && !optTruthy q.text && !optTruthy q.person
      && !optTruthy q.tag && !optTruthy q.category then
      recentView today limit s
    else results
  let results := match snippetTermOf q with
    | some t => if 0 < results.length then regenerateSnippets s results t else results
    | none => results
  results.take limit

/-! ### The query parser (`SearchEngine.parseQuery`)

Each regular expression of the source is embedded as a dedicated matcher that
recognises the pattern at one position (given the previous character, for `\b`);
`scanPosB` then finds the leftmost match, which is both what `match`/`test`
report first and what `replace` (without `g`) strips. -/

/-- Case-insensitive literal match; returns the rest of the input. -/
def matchLit : List Char → List Char → Option (List Char)
  | [], rest => some rest
  | _ :: _, [] => none
  | l :: ls, c :: cs => if ciEq l c then matchLit ls cs else none

/-- Maximal run of characters satisfying `p`, and the rest. -/
def takeRun (p : Char → Bool) (cs : List Char) : List Char × List Char :=
  (cs.takeWhile p, cs.dropWhile p)

def scanPosBAux (m : Option Char → List Char → Option α) :
    Option Char → List Char → Nat → Option (Nat × α)
  | prev, cs, i =>
    match m prev cs with
    | some a => some (i, a)
    | none =>
      match cs with
      | [] => none
      | c :: rest => scanPosBAux m (some c) rest (i + 1)

/-- Leftmost position (with its payload) at which the matcher succeeds. -/
def scanPosB (m : Option Char → List Char → Option α) (cs : List Char) : Option (Nat × α) :=
  scanPosBAux m none cs 0

/-- Strip the `n` characters starting at position `i` (JS `replace` of the match
with the empty string). -/
def stripAt (cs : List Char) (i n : Nat) : List Char := cs.take i ++ cs.drop (i + n)

/-- `/@(\w+)/`: capture and full-match length. -/
def matchPerson (_ : Option Char) : List Char → Option (String × Nat)
  | '@' :: rest =>
    let run := (takeRun wordChar rest).1
    if run.isEmpty then none else some (String.mk run, run.length + 1)
  | _ => none

/-- `/#(\w+)/`. -/
def matchTag (_ : Option Char) : List Char → Option (String × Nat)
  | '#' :: rest =>
    let run := (takeRun wordChar rest).1
    if run.isEmpty then none else some (String.mk run, run.length + 1)
  | _ => none

/-- `/category:(\w+)/i`. -/
def matchCategory (_ : Option Char) (cs : List Char) : Option (String × Nat) :=
  match matchLit "category:".toList cs with
  | none => none
  | some rest =>
    let run := (takeRun wordChar rest).1
    if run.isEmpty then none else some (String.mk run, 9 + run.length)

/-- `\d{4}-\d{2}-\d{2}`: the captured date string and the rest. -/
def matchDateTok : List Char → Option (String × List Char)
  | a :: b :: c :: d :: '-' :: e :: f :: '-' :: g :: h :: rest =>
    if [a, b, c, d, e, f, g, h].all Char.isDigit then
      some (String.mk [a, b, c, d, '-', e, f, '-', g, h], rest)
    else none
  | _ => none

/-- One of the two explicit range patterns, with its two keywords: captures both
dates and the full-match length. -/
def matchExplicitWith (kw1 kw2 : String) (_ : Option Char) (cs : List Char) :
    Option ((String × String) × Nat) :=
  match matchLit kw1.toList cs with
  | none => none
  | some r1 =>
    let (w1, r2) := takeRun wsChar r1
    if w1.isEmpty then none else
    match matchDateTok r2 with
    | none => none
    | some (d1, r3) =>
      let (w2, r4) := takeRun wsChar r3
      if w2.isEmpty then none else
      match matchLit kw2.toList r4 with
      | none => none
      | some r5 =>
        let (w3, r6) := takeRun wsChar r5
        if w3.isEmpty then none else
        match matchDateTok r6 with
        | none => none
        | some (d2, r7) => some ((d1, d2), cs.length - r7.length)

/-- Whether a `\b` holds between the previous character and a word character. -/
def boundaryOk : Option Char → Bool
  | none => true
  | some c => !wordChar c

/-- `\b<word>\b` (case-insensitive), returning the match length. -/
def matchWordB (w : List Char) (prev : Option Char) (cs : List Char) : Option Nat :=
  if boundaryOk prev then
    match matchLit w cs with
    | none => none
    | some rest =>
      match rest with
      | [] => some w.length
      | c :: _ => if wordChar c then none else some w.length
  else none

/-- An alternation `\b(w₁|w₂|…)\b`, alternatives tried left to right. -/
def matchAltB (ws : List (List Char)) (prev : Option Char) (cs : List Char) : Option Nat :=
  match ws with
  | [] => none
  | w :: rest =>
    match matchWordB w prev cs with
    | some n => some n
    | none => matchAltB rest prev cs

/-- `/\bpast (\d+) days?\b/i`, returning the match length (regex backtracking on
the optional `s` resolved: an `s` after `day` is a word character, so the only
viable parse consumes it when present). -/
def matchPastB (prev : Option Char) (cs : List Char) : Option Nat :=
  if boundaryOk prev then
    match matchLit "past ".toList cs with
    | none => none
    | some r1 =>
      let (ds, r2) := takeRun Char.isDigit r1
      if ds.isEmpty then none else
      match r2 with
      | ' ' :: r3 =>
        match matchLit "day".toList r3 with
        | none => none
        | some r4 =>
          match r4 with
          | [] => some cs.length
          | c :: rest2 =>
            if c = 's' || c = 'S' then
              match rest2 with
              | [] => some cs.length
              | c2 :: _ => if wordChar c2 then none else some (cs.length - rest2.length)
            else if wordChar c then none else some (cs.length - r4.length)
      | _ => none
  else none

/-- `/past (\d+) days?/i` (no boundaries), as re-matched inside `getRange`:
returns the captured number of days. -/
def matchPastNoB (_ : Option Char) (cs : List Char) : Option Nat :=
  match matchLit "past ".toList cs with
  | none => none
  | some r1 =>
    let (ds, r2) := takeRun Char.isDigit r1
    if ds.isEmpty then none else
    match r2 with
    | ' ' :: r3 =>
      match matchLit "day".toList r3 with
      | none => none
      | some _ => some (digitsToNat ds)
    | _ => none

/-- The `@person`, `#tag` and `category:` extraction stages, in source order;
returns the three captures and the stripped-and-trimmed remainder. -/
def stripFilters (q0 : List Char) :
    (Option String × Option String × Option String) × List Char :=
  let (person, q1) :=
    match scanPosB matchPerson q0 with
    | some (i, (name, n)) => (some (lowerStr name), jsTrim (stripAt q0 i n))
    | none => (none, q0)
  let (tag, q2) :=
    match scanPosB matchTag q1 with
    | some (i, (name, n)) => (some name, jsTrim (stripAt q1 i n))
    | none => (none, q1)
  let (category, q3) :=
    match scanPosB matchCategory q2 with
    | some (i, (name, n)) => (some name, jsTrim (stripAt q2 i n))
    | none => (none, q2)
  ((person, tag, category), q3)

/-- The explicit date-range loop: `from X to Y` is tried before
`between X and Y`, first match wins, the match is stripped. -/
def extractExplicit (q : List Char) : Option (String × String) × List Char :=
  match scanPosB (matchExplicitWith "from" "to") q with
  | some (i, (r, n)) => (some r, jsTrim (stripAt q i n))
  | none =>
    match scanPosB (matchExplicitWith "between" "and") q with
    | some (i, (r, n)) => (some r, jsTrim (stripAt q i n))
    | none => (none, q)

/-- The relative-pattern list in source order: the first pattern that matches
anywhere yields its range and the position/length of its leftmost match. -/
def tryRelative (today : Nat) (q : List Char) : Option ((String × String) × Nat × Nat) :=
  match scanPosB (matchWordB "today".toList) q with
  | some (i, n) => some ((formatEpochDay today, formatEpochDay today), i, n)
  | none =>
  match scanPosB (matchWordB "yesterday".toList) q with
  | some (i, n) => some ((formatEpochDay (today - 1), formatEpochDay (today - 1)), i, n)
  | none =>
  match scanPosB (matchAltB ["this week".toList, "past week".toList, "last 7 days".toList]) q with
  | some (i, n) => some ((formatEpochDay (today - 7), formatEpochDay today), i, n)
  | none =>
  match scanPosB (matchWordB "last week".toList) q with
  | some (i, n) => some ((formatEpochDay (today - 14), formatEpochDay (today - 7)), i, n)
  | none =>
  match scanPosB (matchAltB ["this month".toList, "past month".toList, "last 30 days".toList]) q with
  | some (i, n) => some ((formatEpochDay (today - 30), formatEpochDay today), i, n)
  | none =>
  match scanPosB matchPastB q with
  | some (i, n) =>
    let days := match scanPosB matchPastNoB q with
      | some (_, d) => d
      | none => 7
    some ((formatEpochDay (today - days), formatEpochDay today), i, n)
  | none => none

/-- The relative date-expression loop, with stripping. -/
def extractRelative (today : Nat) (q : List Char) : Option (String × String) × List Char :=
  match tryRelative today q with
  | some (r, i, n) => (some r, jsTrim (stripAt q i n))
  | none => (none, q)

/-- `SearchEngine.parseQuery`, with `today` the epoch day of the `new Date()`
read: strips `@person`, `#tag`, `category:`, then an explicit date range, then a
relative date expression (overwriting the explicit dates when both occur), and
keeps the trimmed remainder as free text. -/
def parseQuery (today : Nat) (query : String) : ParsedQuery :=
  let (filters, q3) := stripFilters query.toList
  let (expl, q4) := extractExplicit q3
  let (sd, ed) : Option String × Option String :=
    match expl with
    | some r => (some r.1, some r.2)
    | none => (none, none)
  let (rel, q5) := extractRelative today q4
  let (sd, ed) :=
    match rel with
    | some r => (some r.1, some r.2)
    | none => (sd, ed)
  let t := jsTrim q5
  { originalQuery := query,
    text := if t.isEmpty then none else some (String.mk t),
    person := filters.1, tag := filters.2.1, category := filters.2.2,
    startDate := sd, endDate := ed, limit := none }

/-! ### Derived observations used by the claims -/

/-- An index mutation other than `rebuild`. -/
inductive IndexOp where
  | upsert : String → Note → IndexOp
  | remove : String → IndexOp

def applyOp (cfg : Config) (s : IndexerState) : IndexOp → IndexerState
  | .upsert now note => indexNote cfg now note s
  | .remove id => removeNote id s

def applyOps (cfg : Config) (s : IndexerState) (ops : List IndexOp) : IndexerState :=
  ops.foldl (applyOp cfg) s

/-- Total `mention_count` of the entity rows with the given (already lowercased)
person name; `0` when the entity does not exist. -/
def sumCounts (n : String) (l : List EntityRow) : Nat :=
  ((l.filter (fun e => decide (e.name = n ∧ e.type = "person"))).map
    (fun e => e.mention_count)).sum

def mcountName (n : String) (s : IndexerState) : Nat := sumCounts n s.entities

/-- How many of a note's mention strings name the entity `n`. -/
def countOcc (n : String) (ms : List String) : Nat :=
  (ms.filter (fun m => decide (lowerStr m = n))).length

/-- The ellipsis marker added on a truncated side of a snippet. -/
def ellipsisIf (p : Prop) [Decidable p] : List Char :=
  if p then "...".toList else []

/-- The row inserted by the `indexEntities` loop for a previously unseen name. -/
def newEntity (now m : String) (eid : Nat) : EntityRow :=
  { id := eid, name := lowerStr m, type := "person", first_seen := now, last_seen := now,
    mention_count := 1 }

/-- Well-formedness maintained by the sqlite schema: entity ids are unique and
below the AUTOINCREMENT counter. -/
def WF (s : IndexerState) : Prop :=
  (s.entities.map (fun e => e.id)).Nodup ∧ ∀ e ∈ s.entities, e.id < s.nextEntityId

instance : DecidablePred WF := fun s => by unfold WF; infer_instance

/-- The `notes` rows stored under a given id. -/
def rowsFor (j : String) (s : IndexerState) : List IndexedNote :=
  s.notes.filter (fun r => decide (r.id = j))

/-- The MiniSearch documents stored under a given id. -/
def docsFor (j : String) (s : IndexerState) : List MiniDoc :=
  s.miniDocs.filter (fun d => decide (d.id = j))

/-- The `note_entities` links of a given note id. -/
def linksFor (j : String) (s : IndexerState) : List (String × Nat) :=
  s.noteEntities.filter (fun l => decide (l.1 = j))

/-- The stored body of a given note id. -/
def contentFor (j : String) (s : IndexerState) : Option String := s.noteContents.lookup j

/-! ### Concrete fixtures for witnesses and counterexamples -/

def cfgT : Config := { search := { enableEntityExtraction := true, maxResults := 20 } }

def fmA : NoteFrontmatter :=
  { title := "standup", category := "work", tags := ["meeting"], created := "c0",
    updated := "u0", mentions := ["bob"] }

def noteA : Note :=
  { id := "2025-01-02", filePath := "a.md", date := "2025-01-02", frontmatter := fmA,
    content := "talked with bob about the roadmap" }

def fmB : NoteFrontmatter :=
  { title := "review", category := "work", tags := [], created := "c1", updated := "u1",
    mentions := [] }

def noteB : Note :=
  { id := "2025-01-03", filePath := "b.md", date := "2025-01-03", frontmatter := fmB,
    content := "quarterly review notes" }

/-- Index holding `noteA` then `noteB`. -/
def sAB : IndexerState := indexNote cfgT "t1" noteB (indexNote cfgT "t0" noteA emptyState)

/-- A text search returning nothing, for queries without a text predicate. -/
def tsNil : String → Nat → List SearchResult := fun _ _ => []

/-- Date range matching no stored note, plus a person filter. -/
def qC1 : ParsedQuery :=
  { originalQuery := "", text := none, person := some "bob", tag := none, category := none,
    startDate := some "2030-01-01", endDate := some "2030-01-02", limit := none }

/-- Date range matching both notes, person filter, limit 1. -/
def qC4 : ParsedQuery :=
  { originalQuery := "", text := none, person := some "bob", tag := none, category := none,
    startDate := some "2025-01-01", endDate := some "2025-01-10", limit := some 1 }

/-- A pure date-range query matching no stored note. -/
def qC7 : ParsedQuery :=
  { originalQuery := "", text := none, person := none, tag := none, category := none,
    startDate := some "2030-01-01", endDate := some "2030-01-02", limit := none }

/-- A 150-character single-term string, longer than the snippet half-window. -/
def longA : String := String.mk (List.replicate 150 'a')

def resX : SearchResult :=
  { id := "2025-01-02", filePath := "a.md", date := "2025-01-02", title := "standup",
    category := "work", tags := ["meeting"], mentions := ["bob"], snippet := "s", rank := 0 }

instance : Inhabited SearchResult := ⟨resX⟩

/-! ### Shared lemmas -/

/-- `SearchEngine.search` factors through its stages, truncating last. -/
theorem searchCombined_factor (cfg : Config) (today : Nat)
    (ts : String → Nat → List SearchResult) (s : IndexerState) (q : ParsedQuery) :
    searchCombined cfg today ts s q = (beforeCut cfg today ts s q).take (effLimit cfg q) := rfl

/-! ### Claim C1 -/

/-- Claim C1 (amended): when the already-accumulated result set `a` is non-empty,
the accumulation step intersects: the outcome is exactly the sublist of `a` whose
ids occur in `b` (so it preserves the relative order of `a` and never contains an
id absent from `a`); when `a` is empty, however, the step returns `b` wholesale
instead of the empty intersection. -/
theorem combineStep_intersection_spec (a b : List SearchResult) :
    (a ≠ [] → combineStep a b = intersectResults a b) ∧
    combineStep [] b = b ∧
    (intersectResults a b).Sublist a ∧
    ∀ r, r ∈ intersectResults a b ↔ r ∈ a ∧ r.id ∈ b.map (fun x => x.id) := by
  refine ⟨?_, rfl, List.filter_sublist a, ?_⟩
  · intro h
    unfold combineStep
    rw [if_pos (List.length_pos.mpr h)]
  · intro r
    unfold intersectResults
    simp [List.mem_filter]

theorem combineStep_intersection_spec_witness :
    combineStep [resX] [] = intersectResults [resX] [] :=
  (combineStep_intersection_spec [resX] []).1 (List.cons_ne_nil _ _)

/-- Claim C1, counterexample to the claim as stated: with a date-range predicate
whose result set S1 is empty and a person predicate whose result set is
`[2025-01-02]`, the combined search returns `2025-01-02`, an id absent from S1 —
the empty earlier set is replaced, not intersected. -/
theorem empty_dateset_restored_ce :
    (searchCombined cfgT 20372 tsNil sAB qC1).map (fun r => r.id) = ["2025-01-02"] ∧
    searchByDateRange (qC1.startDate.getD "") (qC1.endDate.getD "") (effLimit cfgT qC1) sAB
      = [] := by
  exact ⟨by rfl, by rfl⟩

/-! ### Claim C4 -/

/-- Claim C4 (amended): the final truncation to the effective limit is the last
step of the combined search, applied after merging and snippet regeneration, and
the output never exceeds the limit; however the per-predicate result sets are
themselves already capped at the same limit inside `mergedResults`. -/
theorem limit_applied_last (cfg : Config) (today : Nat)
    (ts : String → Nat → List SearchResult) (s : IndexerState) (q : ParsedQuery) :
    searchCombined cfg today ts s q = (beforeCut cfg today ts s q).take (effLimit cfg q) ∧
    (searchCombined cfg today ts s q).length ≤ effLimit cfg q := by
  refine ⟨rfl, ?_⟩
  rw [searchCombined_factor]
  exact List.length_take_le _ _

/-- Claim C4, counterexample to the claim as stated: with limit 1, the note
`2025-01-02` matches both the date-range predicate and the person predicate, yet
the combined search returns nothing, because the date-range set was truncated to
its newest entry `2025-01-03` before the intersection. -/
theorem intermediate_truncation_ce :
    searchCombined cfgT 20372 tsNil sAB qC4 = [] ∧
    (searchByDateRange (qC4.startDate.getD "") (qC4.endDate.getD "") 100 sAB).map
      (fun r => r.id) = ["2025-01-03", "2025-01-02"] ∧
    (searchByPerson (qC4.person.getD "") 100 sAB).map (fun r => r.id) = ["2025-01-02"] := by
  exact ⟨by rfl, by rfl, by rfl⟩

/-! ### Claim C7 -/

/-- Claim C7 (amended): the combined search substitutes the "recent documents"
view (last 7 days) exactly when the text, person, tag and category predicates are
all absent and the merged result set is empty — that is, for a fully empty query,
but also for a date-range-only query that matched nothing. -/
theorem recent_view_condition (cfg : Config) (today : Nat)
    (ts : String → Nat → List SearchResult) (s : IndexerState) (q : ParsedQuery) :
    searchCombined cfg today ts s q =
      (snippetStage s q
        (if !(optTruthy q.text || optTruthy q.person || optTruthy q.tag
              || optTruthy q.category) && decide (mergedResults cfg ts s q = []) then
          recentView today (effLimit cfg q) s
        else mergedResults cfg ts s q)).take (effLimit cfg q) := by
  rw [searchCombined_factor]
  unfold beforeCut afterRecent
  have hcond : (decide ((mergedResults cfg ts s q).length = 0) && !optTruthy q.text
      && !optTruthy q.person && !optTruthy q.tag && !optTruthy q.category)
      = (!(optTruthy q.text || optTruthy q.person || optTruthy q.tag
          || optTruthy q.category) && decide (mergedResults cfg ts s q = [])) := by
    have hlist : decide ((mergedResults cfg ts s q).length = 0)
        = decide (mergedResults cfg ts s q = []) := by
      simp [List.length_eq_zero]
    rw [hlist]
    cases optTruthy q.text <;> cases optTruthy q.person <;> cases optTruthy q.tag <;>
      cases optTruthy q.category <;> simp
  rw [hcond]

/-- Claim C7, counterexample to the claim as stated: a query supplying only a
date-range predicate that matches nothing still gets its result set replaced by
the recent-documents view (both stored notes, dated within 7 days of the query
day 2025-01-05). -/
theorem recent_view_with_date_predicate_ce :
    optTruthy qC7.startDate = true ∧
    mergedResults cfgT tsNil sAB qC7 = [] ∧
    (searchCombined cfgT 20093 tsNil sAB qC7).map (fun r => r.id)
      = ["2025-01-03", "2025-01-02"] := by
  exact ⟨by rfl, by rfl, by rfl⟩

/-! ### Claim C5 -/

lemma sumCounts_cons (n : String) (e : EntityRow) (l : List EntityRow) :
    sumCounts n (e :: l)
      = (if e.name = n ∧ e.type = "person" then e.mention_count else 0) + sumCounts n l := by
  unfold sumCounts
  by_cases h : (e.name = n ∧ e.type = "person") <;> simp [List.filter_cons, h]

lemma sumCounts_append (n : String) (l1 l2 : List EntityRow) :
    sumCounts n (l1 ++ l2) = sumCounts n l1 + sumCounts n l2 := by
  unfold sumCounts
  simp [List.filter_append]

lemma sumCounts_map_le (n : String) (f : EntityRow → EntityRow)
    (hname : ∀ e, (f e).name = e.name) (htype : ∀ e, (f e).type = e.type)
    (hc : ∀ e, e.mention_count ≤ (f e).mention_count) :
    ∀ l : List EntityRow, sumCounts n l ≤ sumCounts n (l.map f)
  | [] => le_refl _
  | e :: l => by
    rw [List.map_cons, sumCounts_cons, sumCounts_cons]
    have hcond : ((f e).name = n ∧ (f e).type = "person") ↔ (e.name = n ∧ e.type = "person") := by
      rw [hname, htype]
    apply Nat.add_le_add _ (sumCounts_map_le n f hname htype hc l)
    by_cases h : (e.name = n ∧ e.type = "person")
    · rw [if_pos h, if_pos (hcond.mpr h)]; exact hc e
    · rw [if_neg h, if_neg (fun hh => h (hcond.mp hh))]

/-- One `indexEntities` loop iteration never decreases any summed mention count. -/
lemma mcount_step_le (now nid m n : String) (s : IndexerState) :
    mcountName n s ≤ mcountName n (indexEntityMention now nid s m) := by
  unfold mcountName indexEntityMention
  cases hf : s.entities.find? (fun e => decide (e.name = lowerStr m ∧ e.type = "person")) with
  | some e =>
    have hle : sumCounts n s.entities ≤ sumCounts n (s.entities.map (fun e' =>
        if e'.id = e.id then { e' with last_seen := now, mention_count := e'.mention_count + 1 }
        else e')) := by
      apply sumCounts_map_le
      · intro x; split <;> rfl
      · intro x; split <;> rfl
      · intro x; split <;> simp
    dsimp only
    split <;> exact hle
  | none =>
    have hle : sumCounts n s.entities ≤ sumCounts n (s.entities
        ++ [{ id := s.nextEntityId, name := lowerStr m, type := "person",
              first_seen := now, last_seen := now, mention_count := 1 }]) := by
      rw [sumCounts_append]
      exact Nat.le_add_right _ _
    dsimp only
    split <;> exact hle

lemma mcount_fold_le (now nid n : String) :
    ∀ (ms : List String) (s : IndexerState),
      mcountName n s ≤ mcountName n (ms.foldl (indexEntityMention now nid) s)
  | [], _ => le_refl _
  | m :: ms, s =>
    le_trans (mcount_step_le now nid m n s) (mcount_fold_le now nid n ms _)

lemma mcount_indexNote_le (cfg : Config) (now : String) (note : Note) (s : IndexerState)
    (n : String) : mcountName n s ≤ mcountName n (indexNote cfg now note s) := by
  unfold indexNote
  dsimp only
  split
  · exact le_trans (le_of_eq rfl)
      (mcount_fold_le now note.id n note.frontmatter.mentions
        { s with
          notes := s.notes.filter (fun r => decide (r.id ≠ note.id)) ++ [noteRow note now],
          miniDocs := s.miniDocs.filter (fun d => decide (d.id ≠ note.id)) ++ [miniDocOf note],
          noteContents := setAssoc note.id note.content s.noteContents })
  · exact le_of_eq rfl

lemma mcount_applyOps_le (cfg : Config) (n : String) :
    ∀ (ops : List IndexOp) (s : IndexerState),
      mcountName n s ≤ mcountName n (applyOps cfg s ops)
  | [], _ => le_refl _
  | op :: ops, s => by
    have hstep : mcountName n s ≤ mcountName n (applyOp cfg s op) := by
      cases op with
      | upsert now note => exact mcount_indexNote_le cfg now note s n
      | remove i => exact le_refl _
    exact le_trans hstep (mcount_applyOps_le cfg n ops (applyOp cfg s op))

/-- Claim C5: across any sequence of upserts and removes (no rebuild), the total
`mention_count` recorded for any person entity never decreases; in particular
`removeNote` deletes the document's entity links but leaves the `entities` table
(and so every mention_count) untouched. -/
theorem mention_count_monotone (cfg : Config) (n : String) :
    (∀ (ops : List IndexOp) (s : IndexerState),
      mcountName n s ≤ mcountName n (applyOps cfg s ops)) ∧
    (∀ (i : String) (s : IndexerState),
      (removeNote i s).entities = s.entities ∧ linksFor i (removeNote i s) = []) := by
  refine ⟨mcount_applyOps_le cfg n, ?_⟩
  intro i s
  refine ⟨rfl, ?_⟩
  unfold linksFor removeNote
  dsimp only
  apply List.filter_eq_nil.mpr
  intro a ha
  have h2 : a.1 ≠ i := of_decide_eq_true (List.mem_filter.mp ha).2
  simp [h2]

/-! ### Frame lemmas for the mutations -/

/-- The entity loop touches only `entities` and `noteEntities`. -/
lemma step_frame (now nid m : String) (s : IndexerState) :
    (indexEntityMention now nid s m).notes = s.notes ∧
    (indexEntityMention now nid s m).miniDocs = s.miniDocs ∧
    (indexEntityMention now nid s m).noteContents = s.noteContents := by
  unfold indexEntityMention
  cases hf : s.entities.find? (fun e => decide (e.name = lowerStr m ∧ e.type = "person")) <;>
    dsimp only <;> split <;> exact ⟨rfl, rfl, rfl⟩

lemma fold_frame (now nid : String) : ∀ (ms : List String) (s : IndexerState),
    ((ms.foldl (indexEntityMention now nid) s).notes = s.notes ∧
     (ms.foldl (indexEntityMention now nid) s).miniDocs = s.miniDocs ∧
     (ms.foldl (indexEntityMention now nid) s).noteContents = s.noteContents)
  | [], _ => ⟨rfl, rfl, rfl⟩
  | m :: ms, s => by
    obtain ⟨h1, h2, h3⟩ := fold_frame now nid ms (indexEntityMention now nid s m)
    obtain ⟨g1, g2, g3⟩ := step_frame now nid m s
    exact ⟨h1.trans g1, h2.trans g2, h3.trans g3⟩

lemma indexNote_notes (cfg : Config) (now : String) (note : Note) (s : IndexerState) :
    (indexNote cfg now note s).notes
      = s.notes.filter (fun r => decide (r.id ≠ note.id)) ++ [noteRow note now] := by
  unfold indexNote
  dsimp only
  split
  · exact (fold_frame now note.id note.frontmatter.mentions _).1
  · rfl

lemma indexNote_miniDocs (cfg : Config) (now : String) (note : Note) (s : IndexerState) :
    (indexNote cfg now note s).miniDocs
      = s.miniDocs.filter (fun d => decide (d.id ≠ note.id)) ++ [miniDocOf note] := by
  unfold indexNote
  dsimp only
  split
  · exact (fold_frame now note.id note.frontmatter.mentions _).2.1
  · rfl

lemma indexNote_noteContents (cfg : Config) (now : String) (note : Note) (s : IndexerState) :
    (indexNote cfg now note s).noteContents = setAssoc note.id note.content s.noteContents := by
  unfold indexNote
  dsimp only
  split
  · exact (fold_frame now note.id note.frontmatter.mentions _).2.2
  · rfl

lemma filter_idem {α : Type} (p : α → Bool) : ∀ (l : List α), (l.filter p).filter p = l.filter p
  | [] => rfl
  | x :: l => by
    by_cases h : p x = true <;> simp [List.filter_cons, h, filter_idem p l]

/-! ### Claim C8 -/

lemma mem_insertByDateDesc (x r : IndexedNote) :
    ∀ (l : List IndexedNote), x ∈ insertByDateDesc r l → x = r ∨ x ∈ l
  | [] => by
    intro h
    unfold insertByDateDesc at h
    exact Or.inl (List.mem_singleton.mp h)
  | y :: l => by
    intro h
    unfold insertByDateDesc at h
    split at h
    · rcases List.mem_cons.mp h with h1 | h2
      · exact Or.inr (List.mem_cons.mpr (Or.inl h1))
      · rcases mem_insertByDateDesc x r l h2 with ha | hb
        · exact Or.inl ha
        · exact Or.inr (List.mem_cons.mpr (Or.inr hb))
    · rcases List.mem_cons.mp h with h1 | h2
      · exact Or.inl h1
      · exact Or.inr h2

lemma mem_sortByDateDesc (x : IndexedNote) :
    ∀ (l : List IndexedNote), x ∈ sortByDateDesc l → x ∈ l
  | [] => by intro h; exact absurd h (List.not_mem_nil x)
  | y :: l => by
    intro h
    rcases mem_insertByDateDesc x y (sortByDateDesc l) h with h1 | h2
    · exact List.mem_cons.mpr (Or.inl h1)
    · exact List.mem_cons.mpr (Or.inr (mem_sortByDateDesc x l h2))

/-- Any result of the shared row-query shape comes from a stored row with the
same id that satisfies the filter. -/
lemma search_shape_mem {p : IndexedNote → Bool} {g : IndexedNote → String} {limit : Nat}
    {l : List IndexedNote} {r : SearchResult}
    (h : r ∈ ((sortByDateDesc (l.filter p)).take limit).map (fun n => rowResult n (g n))) :
    ∃ row, row ∈ l ∧ p row = true ∧ r.id = row.id := by
  rcases List.mem_map.mp h with ⟨row, hmem, heq⟩
  have h1 : row ∈ sortByDateDesc (l.filter p) := List.mem_of_mem_take hmem
  have h2 : row ∈ l.filter p := mem_sortByDateDesc row _ h1
  rcases List.mem_filter.mp h2 with ⟨h3, h4⟩
  exact ⟨row, h3, h4, by rw [← heq]; rfl⟩

/-- Claim C8: after `upsert(D)` then `remove(D.id)`, no person, tag, category or
date-range query returns a result with `D.id`, the full-text index no longer
holds a document with `D.id`, and `stats().noteCount` has decreased by one
relative to the post-upsert state. -/
theorem remove_after_upsert_clears (cfg : Config) (now : String) (note : Note)
    (s : IndexerState) :
    (∀ name limit, (searchByPerson name limit
        (removeNote note.id (indexNote cfg now note s))).all
        (fun r => decide (r.id ≠ note.id)) = true) ∧
    (∀ tag limit, (searchByTag tag limit
        (removeNote note.id (indexNote cfg now note s))).all
        (fun r => decide (r.id ≠ note.id)) = true) ∧
    (∀ category limit, (searchByCategory category limit
        (removeNote note.id (indexNote cfg now note s))).all
        (fun r => decide (r.id ≠ note.id)) = true) ∧
    (∀ d1 d2 limit, (searchByDateRange d1 d2 limit
        (removeNote note.id (indexNote cfg now note s))).all
        (fun r => decide (r.id ≠ note.id)) = true) ∧
    ((removeNote note.id (indexNote cfg now note s)).miniDocs.all
        (fun d => decide (d.id ≠ note.id)) = true) ∧
    (getStats (removeNote note.id (indexNote cfg now note s))).1 + 1
      = (getStats (indexNote cfg now note s)).1 := by
  have hrows : ∀ row ∈ (removeNote note.id (indexNote cfg now note s)).notes,
      row.id ≠ note.id := by
    intro row hr
    have hr2 : row ∈ (indexNote cfg now note s).notes.filter
        (fun r => decide (r.id ≠ note.id)) := hr
    exact of_decide_eq_true (List.mem_filter.mp hr2).2
  refine ⟨?_, ?_, ?_, ?_, ?_, ?_⟩
  · intro name limit
    rw [List.all_eq_true]
    intro r hr
    rcases search_shape_mem hr with ⟨row, hrow, _, hid⟩
    exact decide_eq_true (hid ▸ hrows row hrow)
  · intro tag limit
    rw [List.all_eq_true]
    intro r hr
    rcases search_shape_mem hr with ⟨row, hrow, _, hid⟩
    exact decide_eq_true (hid ▸ hrows row hrow)
  · intro category limit
    rw [List.all_eq_true]
    intro r hr
    rcases search_shape_mem hr with ⟨row, hrow, _, hid⟩
    exact decide_eq_true (hid ▸ hrows row hrow)
  · intro d1 d2 limit
    rw [List.all_eq_true]
    intro r hr
    rcases search_shape_mem hr with ⟨row, hrow, _, hid⟩
    exact decide_eq_true (hid ▸ hrows row hrow)
  · rw [List.all_eq_true]
    intro d hd
    have hd2 : d ∈ (indexNote cfg now note s).miniDocs.filter
        (fun x => decide (x.id ≠ note.id)) := hd
    exact (List.mem_filter.mp hd2).2
  · show ((indexNote cfg now note s).notes.filter
        (fun r => decide (r.id ≠ note.id))).length + 1
      = (indexNote cfg now note s).notes.length
    rw [indexNote_notes, List.filter_append, filter_idem]
    have hone : ([noteRow note now].filter (fun r => decide (r.id ≠ note.id))) = [] := by
      simp [noteRow]
    rw [hone, List.append_nil, List.length_append]
    rfl

/-! ### Claim C10 -/

lemma filter_eq_after_ne {α : Type} (key : α → String) {j k : String} (h : j ≠ k) :
    ∀ (l : List α),
      ((l.filter (fun x => decide (key x ≠ k))).filter (fun x => decide (key x = j)))
        = l.filter (fun x => decide (key x = j))
  | [] => rfl
  | x :: l => by
    have ih := filter_eq_after_ne key h l
    by_cases hxk : key x = k
    · have hxj : ¬(key x = j) := fun hh => h (hh.symm.trans hxk)
      have h1 : ¬((fun y => decide (key y ≠ k)) x = true) := by simp [hxk]
      have h2 : ¬((fun y => decide (key y = j)) x = true) := by simp [hxj]
      rw [@List.filter_cons_of_neg _ (fun y => decide (key y ≠ k)) x l h1,
        @List.filter_cons_of_neg _ (fun y => decide (key y = j)) x l h2, ih]
    · have h1 : ((fun y => decide (key y ≠ k)) x = true) := by simp [hxk]
      rw [@List.filter_cons_of_pos _ (fun y => decide (key y ≠ k)) x l h1]
      by_cases hxj : key x = j
      · have h2 : ((fun y => decide (key y = j)) x = true) := by simp [hxj]
        rw [@List.filter_cons_of_pos _ (fun y => decide (key y = j)) x
            (l.filter (fun y => decide (key y ≠ k))) h2,
          @List.filter_cons_of_pos _ (fun y => decide (key y = j)) x l h2, ih]
      · have h2 : ¬((fun y => decide (key y = j)) x = true) := by simp [hxj]
        rw [@List.filter_cons_of_neg _ (fun y => decide (key y = j)) x
            (l.filter (fun y => decide (key y ≠ k))) h2,
          @List.filter_cons_of_neg _ (fun y => decide (key y = j)) x l h2, ih]

lemma lookup_setAssoc_ne (k v j : String) (h : j ≠ k) :
    ∀ (l : List (String × String)), (setAssoc k v l).lookup j = l.lookup j
  | [] => by
    have hb : (j == k) = false := by simp [h]
    simp [setAssoc, List.lookup_cons, hb, List.lookup]
  | (k', v') :: l => by
    by_cases hk : k' = k
    · subst hk
      have hb : (j == k') = false := by simp [h]
      have hsa : setAssoc k' v ((k', v') :: l) = (k', v) :: l := by simp [setAssoc]
      rw [hsa, List.lookup_cons, List.lookup_cons, hb]
    · have hsa : setAssoc k v ((k', v') :: l) = (k', v') :: setAssoc k v l := by
        simp [setAssoc, hk]
      rw [hsa, List.lookup_cons, List.lookup_cons]
      cases hb : (j == k') with
      | true => rfl
      | false => exact lookup_setAssoc_ne k v j h l

lemma lookup_filter_ne (i j : String) (h : j ≠ i) :
    ∀ (l : List (String × String)),
      (l.filter (fun p => decide (p.1 ≠ i))).lookup j = l.lookup j
  | [] => rfl
  | (k, v) :: l => by
    by_cases hk : k = i
    · have h1 : ¬((fun p => decide (p.1 ≠ i)) (k, v) = true) := by simp [hk]
      rw [@List.filter_cons_of_neg _ (fun p => decide (p.1 ≠ i)) (k, v) l h1,
        List.lookup_cons]
      have hb : (j == k) = false := by simp [hk ▸ h]
      rw [hb]
      exact lookup_filter_ne i j h l
    · have h1 : (fun p => decide (p.1 ≠ i)) (k, v) = true := by simp [hk]
      rw [@List.filter_cons_of_pos _ (fun p => decide (p.1 ≠ i)) (k, v) l h1,
        List.lookup_cons, List.lookup_cons]
      cases hb : (j == k) with
      | true => rfl
      | false => exact lookup_filter_ne i j h l

lemma step_links (now nid m j : String) (h : j ≠ nid) (s : IndexerState) :
    (indexEntityMention now nid s m).noteEntities.filter (fun l => decide (l.1 = j))
      = s.noteEntities.filter (fun l => decide (l.1 = j)) := by
  have hnj : nid ≠ j := Ne.symm h
  unfold indexEntityMention
  cases hf : s.entities.find? (fun e => decide (e.name = lowerStr m ∧ e.type = "person")) <;>
    dsimp only <;> split
  · rfl
  · rw [List.filter_append]
    simp [hnj]
  · rfl
  · rw [List.filter_append]
    simp [hnj]

lemma fold_links (now nid j : String) (h : j ≠ nid) :
    ∀ (ms : List String) (s : IndexerState),
      ((ms.foldl (indexEntityMention now nid) s).noteEntities.filter
          (fun l => decide (l.1 = j)))
        = s.noteEntities.filter (fun l => decide (l.1 = j))
  | [], _ => rfl
  | m :: ms, s =>
    (fold_links now nid j h ms (indexEntityMention now nid s m)).trans
      (step_links now nid m j h s)

/-- Claim C10: `upsert(D)` leaves the stored row, full-text document, stored
content and entity links of every other note id unchanged, and `remove(i)`
leaves the rows, documents, contents and links of every other id unchanged and
the entity table entirely unchanged. -/
theorem upsert_remove_frame (cfg : Config) (now : String) (note : Note) (s : IndexerState)
    (j i : String) (hj : j ≠ note.id) (hi : j ≠ i) :
    (rowsFor j (indexNote cfg now note s) = rowsFor j s ∧
     docsFor j (indexNote cfg now note s) = docsFor j s ∧
     contentFor j (indexNote cfg now note s) = contentFor j s ∧
     linksFor j (indexNote cfg now note s) = linksFor j s) ∧
    (rowsFor j (removeNote i s) = rowsFor j s ∧
     docsFor j (removeNote i s) = docsFor j s ∧
     contentFor j (removeNote i s) = contentFor j s ∧
     linksFor j (removeNote i s) = linksFor j s ∧
     (removeNote i s).entities = s.entities) := by
  have hj' : note.id ≠ j := Ne.symm hj
  refine ⟨⟨?_, ?_, ?_, ?_⟩, ⟨?_, ?_, ?_, ?_, rfl⟩⟩
  · unfold rowsFor
    rw [indexNote_notes, List.filter_append]
    have hone : ([noteRow note now].filter (fun r => decide (r.id = j))) = [] := by
      simp [noteRow, hj']
    rw [hone, List.append_nil]
    exact filter_eq_after_ne (fun r : IndexedNote => r.id) hj s.notes
  · unfold docsFor
    rw [indexNote_miniDocs, List.filter_append]
    have hone : ([miniDocOf note].filter (fun d => decide (d.id = j))) = [] := by
      simp [miniDocOf, hj']
    rw [hone, List.append_nil]
    exact filter_eq_after_ne (fun d : MiniDoc => d.id) hj s.miniDocs
  · unfold contentFor
    rw [indexNote_noteContents]
    exact lookup_setAssoc_ne note.id note.content j hj s.noteContents
  · unfold linksFor indexNote
    dsimp only
    split
    · exact fold_links now note.id j hj note.frontmatter.mentions _
    · rfl
  · exact filter_eq_after_ne (fun r : IndexedNote => r.id) hi s.notes
  · exact filter_eq_after_ne (fun d : MiniDoc => d.id) hi s.miniDocs
  · exact lookup_filter_ne i j hi s.noteContents
  · exact filter_eq_after_ne (fun l : String × Nat => l.1) hi s.noteEntities

theorem upsert_remove_frame_witness :
    rowsFor "x" (indexNote cfgT "t2" noteA sAB) = rowsFor "x" sAB :=
  ((upsert_remove_frame cfgT "t2" noteA sAB "x" "y" (by decide) (by decide)).1).1

/-! ### Claim C3 -/

lemma map_update_id_not_mem (now : String) (eid : Nat) :
    ∀ (l : List EntityRow), (∀ x ∈ l, x.id ≠ eid) →
      l.map (fun x => if x.id = eid then
          { x with last_seen := now, mention_count := x.mention_count + 1 } else x) = l
  | [], _ => rfl
  | a :: l, h => by
    rw [List.map_cons, if_neg (h a (List.mem_cons_self a l)),
      map_update_id_not_mem now eid l (fun x hx => h x (List.mem_cons_of_mem a hx))]

/-- Updating the (unique, by Nodup) row with the found entity's id adds exactly
one to the summed count of its name. -/
lemma sumCounts_update (n now : String) (e : EntityRow) :
    ∀ (l : List EntityRow), e ∈ l → (l.map (fun x => x.id)).Nodup →
      sumCounts n (l.map (fun x => if x.id = e.id then
          { x with last_seen := now, mention_count := x.mention_count + 1 } else x))
        = sumCounts n l + (if e.name = n ∧ e.type = "person" then 1 else 0)
  | [], hmem, _ => absurd hmem (List.not_mem_nil e)
  | a :: l, hmem, hnd => by
    rw [List.map_cons] at hnd ⊢
    have hnd1 := (List.nodup_cons.mp hnd).1
    have hnd2 := (List.nodup_cons.mp hnd).2
    rcases List.mem_cons.mp hmem with he | he
    · subst he
      rw [if_pos rfl]
      have htail : ∀ x ∈ l, x.id ≠ e.id := by
        intro x hx hxe
        exact hnd1 (hxe ▸ List.mem_map_of_mem (fun y => y.id) hx)
      rw [map_update_id_not_mem now e.id l htail, sumCounts_cons, sumCounts_cons]
      dsimp only
      by_cases hc : (e.name = n ∧ e.type = "person")
      · rw [if_pos hc, if_pos hc, if_pos hc]
        omega
      · rw [if_neg hc, if_neg hc, if_neg hc]
        omega
    · have hane : a.id ≠ e.id := by
        intro hae
        exact hnd1 (hae ▸ List.mem_map_of_mem (fun y => y.id) he)
      rw [if_neg hane, sumCounts_cons, sumCounts_cons,
        sumCounts_update n now e l he hnd2]
      omega

lemma countOcc_cons (n m : String) (ms : List String) :
    countOcc n (m :: ms) = (if lowerStr m = n then 1 else 0) + countOcc n ms := by
  unfold countOcc
  by_cases h : lowerStr m = n <;> simp [List.filter_cons, h] <;> omega

/-- One entity-loop iteration under well-formedness: the summed count of name
`n` grows by one exactly when the mention names `n`, and WF is preserved. -/
lemma step_mcount_WF (now nid m n : String) (s : IndexerState) (h : WF s) :
    mcountName n (indexEntityMention now nid s m)
      = mcountName n s + (if lowerStr m = n then 1 else 0) ∧
    WF (indexEntityMention now nid s m) := by
  obtain ⟨hnd, hbound⟩ := h
  unfold mcountName indexEntityMention
  cases hf : s.entities.find? (fun e => decide (e.name = lowerStr m ∧ e.type = "person")) with
  | some e =>
    have hmem : e ∈ s.entities := List.mem_of_find?_eq_some hf
    have hp := List.find?_some hf
    have hprop : e.name = lowerStr m ∧ e.type = "person" := of_decide_eq_true hp
    have hcount : sumCounts n (s.entities.map (fun x => if x.id = e.id then
        { x with last_seen := now, mention_count := x.mention_count + 1 } else x))
        = sumCounts n s.entities + (if lowerStr m = n then 1 else 0) := by
      rw [sumCounts_update n now e s.entities hmem hnd]
      congr 1
      rw [if_congr (Iff.intro (fun hc => hprop.1 ▸ hc.1) (fun hc => ⟨hprop.1.trans hc, hprop.2⟩))
        rfl rfl]
    have hids : (s.entities.map (fun x => if x.id = e.id then
        { x with last_seen := now, mention_count := x.mention_count + 1 } else x)).map
        (fun x => x.id) = s.entities.map (fun x => x.id) := by
      rw [List.map_map]
      apply List.map_congr_left
      intro x _
      by_cases hx : x.id = e.id
      · rw [Function.comp_apply, if_pos hx]
      · rw [Function.comp_apply, if_neg hx]
    have hwf : WF { s with entities := s.entities.map (fun x => if x.id = e.id then
        { x with last_seen := now, mention_count := x.mention_count + 1 } else x) } := by
      refine ⟨?_, ?_⟩
      · dsimp only
        rw [hids]
        exact hnd
      · intro x hx
        rcases List.mem_map.mp hx with ⟨y, hy, hyx⟩
        have hyb := hbound y hy
        by_cases hyid : y.id = e.id
        · rw [if_pos hyid] at hyx
          rw [← hyx]
          exact hyid ▸ hyb
        · rw [if_neg hyid] at hyx
          rw [← hyx]
          exact hyb
    dsimp only
    split
    · exact ⟨hcount, hwf⟩
    · exact ⟨hcount, hwf.1, hwf.2⟩
  | none =>
    have hcount : sumCounts n (s.entities ++ [newEntity now m s.nextEntityId])
        = sumCounts n s.entities + (if lowerStr m = n then 1 else 0) := by
      rw [sumCounts_append, sumCounts_cons]
      by_cases hc : lowerStr m = n
      · rw [if_pos hc, if_pos ⟨hc, rfl⟩]
        rfl
      · rw [if_neg hc, if_neg (fun hh => hc hh.1)]
        rfl
    have hnodup : ((s.entities ++ [newEntity now m s.nextEntityId]).map
        (fun x => x.id)).Nodup := by
      rw [List.map_append, List.nodup_append]
      refine ⟨hnd, List.nodup_singleton _, ?_⟩
      intro a ha hb
      have hlt : a < s.nextEntityId := by
        rcases List.mem_map.mp ha with ⟨y, hy, hyx⟩
        exact hyx ▸ hbound y hy
      have hb2 : a = s.nextEntityId := List.mem_singleton.mp hb
      omega
    have hboundall : ∀ x ∈ s.entities ++ [newEntity now m s.nextEntityId],
        x.id < s.nextEntityId + 1 := by
      intro x hx
      rcases List.mem_append.mp hx with hx1 | hx1
      · exact Nat.lt_succ_of_lt (hbound x hx1)
      · rw [List.mem_singleton.mp hx1]
        exact Nat.lt_succ_self _
    dsimp only
    split
    · exact ⟨hcount, hnodup, hboundall⟩
    · exact ⟨hcount, hnodup, hboundall⟩

lemma fold_mcount_WF (now nid n : String) :
    ∀ (ms : List String) (s : IndexerState), WF s →
      mcountName n (ms.foldl (indexEntityMention now nid) s)
        = mcountName n s + countOcc n ms ∧
      WF (ms.foldl (indexEntityMention now nid) s)
  | [], s, h => by
    refine ⟨?_, h⟩
    unfold countOcc
    simp
  | m :: ms, s, h => by
    obtain ⟨hc, hw⟩ := step_mcount_WF now nid m n s h
    obtain ⟨hc2, hw2⟩ := fold_mcount_WF now nid n ms (indexEntityMention now nid s m) hw
    refine ⟨?_, hw2⟩
    rw [List.foldl_cons, hc2, hc, countOcc_cons]
    omega

lemma indexNote_mcount_WF (cfg : Config) (now : String) (note : Note) (s : IndexerState)
    (n : String) (h : WF s) :
    mcountName n (indexNote cfg now note s)
      = mcountName n s + (if cfg.search.enableEntityExtraction then
          countOcc n note.frontmatter.mentions else 0) ∧
    WF (indexNote cfg now note s) := by
  unfold indexNote
  dsimp only
  split
  · exact fold_mcount_WF now note.id n note.frontmatter.mentions _ ⟨h.1, h.2⟩
  · exact ⟨(Nat.add_zero _).symm, h.1, h.2⟩

lemma setAssoc_idem (k v : String) :
    ∀ (l : List (String × String)), setAssoc k v (setAssoc k v l) = setAssoc k v l
  | [] => by simp [setAssoc]
  | (k', v') :: l => by
    by_cases hk : k' = k
    · subst hk
      simp [setAssoc]
    · simp [setAssoc, hk, setAssoc_idem k v l]

lemma filter_eq_of_filter_ne_nil {α : Type} (key : α → String) (k : String) :
    ∀ (l : List α),
      ((l.filter (fun x => decide (key x ≠ k))).filter (fun x => decide (key x = k))) = []
  | [] => rfl
  | x :: l => by
    by_cases hx : key x = k
    · have h1 : ¬((fun y => decide (key y ≠ k)) x = true) := by simp [hx]
      rw [@List.filter_cons_of_neg _ (fun y => decide (key y ≠ k)) x l h1]
      exact filter_eq_of_filter_ne_nil key k l
    · have h1 : ((fun y => decide (key y ≠ k)) x = true) := by simp [hx]
      have h2 : ¬((fun y => decide (key y = k)) x = true) := by simp [hx]
      rw [@List.filter_cons_of_pos _ (fun y => decide (key y ≠ k)) x l h1,
        @List.filter_cons_of_neg _ (fun y => decide (key y = k)) x
          (l.filter (fun y => decide (key y ≠ k))) h2]
      exact filter_eq_of_filter_ne_nil key k l

/-- Claim C3 (amended): upserting the same document twice (same timestamp) leaves
the `notes` table, the full-text documents and the stored contents identical to a
single upsert — in particular exactly one IndexEntry row for the id, no
duplicates — but, when entity extraction is enabled, the second upsert increments
the mention_count of every mentioned entity once more per occurrence instead of
leaving it unchanged. -/
theorem upsert_twice_rows_and_counts (cfg : Config) (now : String) (note : Note)
    (s : IndexerState) (n : String) (h : WF s) :
    (indexNote cfg now note (indexNote cfg now note s)).notes
      = (indexNote cfg now note s).notes ∧
    (indexNote cfg now note (indexNote cfg now note s)).miniDocs
      = (indexNote cfg now note s).miniDocs ∧
    (indexNote cfg now note (indexNote cfg now note s)).noteContents
      = (indexNote cfg now note s).noteContents ∧
    rowsFor note.id (indexNote cfg now note s) = [noteRow note now] ∧
    mcountName n (indexNote cfg now note (indexNote cfg now note s))
      = mcountName n (indexNote cfg now note s)
        + (if cfg.search.enableEntityExtraction then countOcc n note.frontmatter.mentions
           else 0) := by
  refine ⟨?_, ?_, ?_, ?_, ?_⟩
  · rw [indexNote_notes, indexNote_notes, List.filter_append, filter_idem]
    have hone : ([noteRow note now].filter (fun r => decide (r.id ≠ note.id))) = [] := by
      simp [noteRow]
    rw [hone, List.append_nil]
  · rw [indexNote_miniDocs, indexNote_miniDocs, List.filter_append, filter_idem]
    have hone : ([miniDocOf note].filter (fun d => decide (d.id ≠ note.id))) = [] := by
      simp [miniDocOf]
    rw [hone, List.append_nil]
  · rw [indexNote_noteContents, indexNote_noteContents, setAssoc_idem]
  · unfold rowsFor
    rw [indexNote_notes, List.filter_append,
      filter_eq_of_filter_ne_nil (fun r : IndexedNote => r.id) note.id s.notes,
      List.nil_append]
    simp [noteRow]
  · exact (indexNote_mcount_WF cfg now note (indexNote cfg now note s) n
      (indexNote_mcount_WF cfg now note s n h).2).1

theorem upsert_twice_rows_and_counts_witness :
    rowsFor noteA.id (indexNote cfgT "t0" noteA emptyState) = [noteRow noteA "t0"] :=
  (upsert_twice_rows_and_counts cfgT "t0" noteA emptyState "bob" (by decide)).2.2.2.1

/-- Claim C3, counterexample to the claim as stated: a second identical upsert of
`noteA` (mentioning bob once) raises bob's mention_count from 1 to 2, so entity
statistics are double-counted beyond the mentions present in the document. -/
theorem double_upsert_double_counts :
    mcountName "bob" (indexNote cfgT "t0" noteA emptyState) = 1 ∧
    mcountName "bob" (indexNote cfgT "t1" noteA (indexNote cfgT "t0" noteA emptyState)) = 2 :=
  ⟨rfl, rfl⟩

/-! ### Claim C2 -/

/-- Claim C2: when the final merged set is non-empty and the query carries a free
text, person or tag predicate, every returned result's snippet is regenerated
from the stored body around the single primary term, chosen as free text, else
person, else tag (so a person-only result is snippetted around the person's
name). The regeneration body is modelled from the spec, `regenerateSnippets`
being absent from the sources. -/
theorem snippet_regeneration (cfg : Config) (today : Nat)
    (ts : String → Nat → List SearchResult) (s : IndexerState) (q : ParsedQuery)
    (t : String) (ht : snippetTermOf q = some t)
    (hne : afterRecent cfg today ts s q ≠ []) :
    (∀ r ∈ searchCombined cfg today ts s q,
        r.snippet = extractSnippet ((s.noteContents.lookup r.id).getD "") t 200) ∧
    (optTruthy q.text = true → snippetTermOf q = q.text) ∧
    (optTruthy q.text = false → optTruthy q.person = true → snippetTermOf q = q.person) ∧
    (optTruthy q.text = false → optTruthy q.person = false → optTruthy q.tag = true →
      snippetTermOf q = q.tag) := by
  refine ⟨?_, ?_, ?_, ?_⟩
  · intro r hr
    rw [searchCombined_factor] at hr
    unfold beforeCut snippetStage at hr
    rw [ht] at hr
    dsimp only at hr
    rw [if_pos (List.length_pos.mpr hne)] at hr
    have hr2 := List.mem_of_mem_take hr
    unfold regenerateSnippets at hr2
    rcases List.mem_map.mp hr2 with ⟨r0, _, heq⟩
    rw [← heq]
  · intro h1
    unfold snippetTermOf
    rw [if_pos h1]
  · intro h1 h2
    unfold snippetTermOf
    rw [if_neg (by simp [h1]), if_pos h2]
  · intro h1 h2 h3
    unfold snippetTermOf
    rw [if_neg (by simp [h1]), if_neg (by simp [h2]), if_pos h3]

theorem snippet_regeneration_witness :
    (searchCombined cfgT 20372 tsNil sAB qC1).headI.snippet
      = extractSnippet
          ((sAB.noteContents.lookup
            (searchCombined cfgT 20372 tsNil sAB qC1).headI.id).getD "")
          "bob" 200 := by
  have hlen : (afterRecent cfgT 20372 tsNil sAB qC1).length = 1 := rfl
  have hl : searchCombined cfgT 20372 tsNil sAB qC1
      = [(searchCombined cfgT 20372 tsNil sAB qC1).headI] := rfl
  refine (snippet_regeneration cfgT 20372 tsNil sAB qC1 "bob" rfl
    (List.ne_nil_of_length_pos (by rw [hlen]; exact Nat.one_pos))).1 _ ?_
  nth_rewrite 2 [hl]
  exact List.mem_singleton.mpr rfl

/-! ### Claim C6 -/

/-- Claim C6 (amended): within each class the first matching pattern wins and
explicit `from`/`between` forms are checked (and stripped) before relative
expressions; but the relative loop still runs on the stripped remainder, so when
a relative expression also matches, it is honoured and overwrites the explicit
range — the final dates come from the relative expression when one matches,
else from the explicit form, else are absent. -/
theorem parseQuery_range_resolution (T : Nat) (q : String) :
    ((parseQuery T q).startDate, (parseQuery T q).endDate)
      = (match (extractRelative T (extractExplicit (stripFilters q.toList).2).2).1 with
         | some r => (some r.1, some r.2)
         | none =>
           match (extractExplicit (stripFilters q.toList).2).1 with
           | some r => (some r.1, some r.2)
           | none => (none, none)) := by
  unfold parseQuery
  rcases hs : stripFilters q.toList with ⟨f, q3⟩
  dsimp only

/-- Claim C6, counterexample to the claim as stated: in
`"from 2024-01-01 to 2024-01-05 today"` the explicit range matches first, yet
the later-matching relative expression `today` (query day 2025-10-11) overwrites
the parsed start and end dates. -/
theorem relative_overwrites_explicit_ce :
    (extractExplicit (stripFilters ("from 2024-01-01 to 2024-01-05 today").toList).2).1
      = some ("2024-01-01", "2024-01-05") ∧
    (parseQuery 20372 "from 2024-01-01 to 2024-01-05 today").startDate
      = some "2025-10-11" ∧
    (parseQuery 20372 "from 2024-01-01 to 2024-01-05 today").endDate
      = some "2025-10-11" :=
  ⟨rfl, rfl, rfl⟩

/-! ### Claim C9 -/

lemma indexOfSubAux_spec (needle : List Char) :
    ∀ (l : List Char) (i j : Nat), indexOfSubAux needle l i = some j →
      i ≤ j ∧ j - i ≤ l.length ∧ needle.isPrefixOf (l.drop (j - i)) = true
  | [], i, j => by
    intro h
    rw [indexOfSubAux] at h
    by_cases he : needle.isEmpty = true
    · rw [if_pos he] at h
      cases h
      refine ⟨le_refl _, by simp, ?_⟩
      rw [List.isEmpty_iff.mp he, List.drop_nil]
      rfl
    · rw [if_neg he] at h
      exact absurd h (by simp)
  | c :: cs, i, j => by
    intro h
    rw [indexOfSubAux] at h
    by_cases hpre : needle.isPrefixOf (c :: cs) = true
    · rw [if_pos hpre] at h
      cases h
      refine ⟨le_refl _, by simp, ?_⟩
      rw [Nat.sub_self]
      exact hpre
    · rw [if_neg hpre] at h
      obtain ⟨h1, h2, h3⟩ := indexOfSubAux_spec needle cs (i + 1) j h
      refine ⟨by omega, by simp only [List.length_cons]; omega, ?_⟩
      have hk : j - i = (j - (i + 1)) + 1 := by omega
      rw [hk, List.drop_succ_cons]
      exact h3

lemma indexOfSub_spec (t hay : List Char) (p : Nat) (h : indexOfSub t hay = some p) :
    p + t.length ≤ hay.length ∧ t.isPrefixOf (hay.drop p) = true := by
  obtain ⟨_, h2, h3⟩ := indexOfSubAux_spec t hay 0 p h
  rw [Nat.sub_zero] at h2 h3
  have hpre := List.isPrefixOf_iff_prefix.mp h3
  have hlen := hpre.length_le
  rw [List.length_drop] at hlen
  exact ⟨by omega, h3⟩

lemma splitWsAux_no_ws :
    ∀ (cs acc : List Char), (∀ c ∈ acc, wsChar c = false) →
      ∀ tk ∈ splitWsAux cs acc, ∀ c ∈ tk, wsChar c = false
  | [], acc, hacc => by
    intro tk htk c hc
    rw [splitWsAux] at htk
    split at htk
    · exact absurd htk (List.not_mem_nil tk)
    · rw [List.mem_singleton] at htk
      subst htk
      exact hacc c (List.mem_reverse.mp hc)
  | c0 :: cs, acc, hacc => by
    intro tk htk c hc
    rw [splitWsAux] at htk
    by_cases hws : wsChar c0 = true
    · rw [if_pos hws] at htk
      split at htk
      · exact splitWsAux_no_ws cs []
          (fun x hx => absurd hx (List.not_mem_nil x)) tk htk c hc
      · rcases List.mem_cons.mp htk with h1 | h1
        · subst h1
          exact hacc c (List.mem_reverse.mp hc)
        · exact splitWsAux_no_ws cs []
            (fun x hx => absurd hx (List.not_mem_nil x)) tk h1 c hc
    · rw [if_neg hws] at htk
      refine splitWsAux_no_ws cs (c0 :: acc) ?_ tk htk c hc
      intro x hx
      rcases List.mem_cons.mp hx with h1 | h1
      · subst h1
        exact Bool.eq_false_iff.mpr hws
      · exact hacc x h1

lemma snippetTerms_no_ws (q t : List Char) (ht : t ∈ snippetTerms q) :
    ∀ c ∈ t, wsChar c = false :=
  splitWsAux_no_ws (lowerList q) [] (fun x hx => absurd hx (List.not_mem_nil x)) t
    (List.mem_filter.mp ht).1

lemma findCharFromAux_ge (ch : Char) :
    ∀ (l : List Char) (i j : Nat), findCharFromAux ch l i = some j → i ≤ j
  | [], i, j => by
    intro h
    exact absurd h (by rw [findCharFromAux]; simp)
  | c :: cs, i, j => by
    intro h
    rw [findCharFromAux] at h
    by_cases hc : c = ch
    · rw [if_pos hc] at h
      cases h
      exact le_refl _
    · rw [if_neg hc] at h
      have := findCharFromAux_ge ch cs (i + 1) j h
      omega

lemma lastIdxAux_spec (ch : Char) :
    ∀ (l : List Char) (i : Nat) (acc : Option Nat) (j : Nat),
      lastIdxAux ch l i acc = some j →
      acc = some j ∨ (i ≤ j ∧ j - i < l.length ∧ l[j - i]? = some ch)
  | [], _, acc, j => fun h => Or.inl h
  | c :: cs, i, acc, j => by
    intro h
    rw [lastIdxAux] at h
    rcases lastIdxAux_spec ch cs (i + 1) (if c = ch then some i else acc) j h with h1 | h1
    · by_cases hc : c = ch
      · rw [if_pos hc] at h1
        cases h1
        refine Or.inr ⟨le_refl _, by simp, ?_⟩
        rw [Nat.sub_self, hc]
        exact List.getElem?_cons_zero
      · rw [if_neg hc] at h1
        exact Or.inl h1
    · obtain ⟨ha, hb, hcc⟩ := h1
      refine Or.inr ⟨by omega, by simp only [List.length_cons]; omega, ?_⟩
      have hk : j - i = (j - (i + 1)) + 1 := by omega
      rw [hk, List.getElem?_cons_succ]
      exact hcc

lemma lastIndexOfCharUpto_spec (ch : Char) (pos : Nat) (cs : List Char) (j : Nat)
    (h : lastIndexOfCharUpto ch pos cs = some j) :
    j ≤ pos ∧ j < cs.length ∧ cs[j]? = some ch := by
  rcases lastIdxAux_spec ch (cs.take (pos + 1)) 0 none j h with h1 | h1
  · exact absurd h1 (by simp)
  · obtain ⟨_, hb, hcc⟩ := h1
    rw [Nat.sub_zero] at hb hcc
    have hlen1 : (cs.take (pos + 1)).length ≤ pos + 1 := by
      rw [List.length_take]
      exact Nat.min_le_left _ _
    have hlen2 : (cs.take (pos + 1)).length ≤ cs.length := by
      rw [List.length_take]
      exact Nat.min_le_right _ _
    rw [List.getElem?_take, if_pos (by omega)] at hcc
    exact ⟨by omega, by omega, hcc⟩

lemma snippetStart_spec (cs : List Char) (p half : Nat) :
    snippetStart cs p half ≤ p ∧ p ≤ snippetStart cs p half + half := by
  rw [snippetStart]
  by_cases h0 : 0 < p - half
  · rw [if_pos h0]
    cases hf : indexOfCharFrom ' ' (p - half) cs with
    | none =>
      dsimp only
      exact ⟨by omega, by omega⟩
    | some sp =>
      have hge : p - half ≤ sp := by
        rw [indexOfCharFrom] at hf
        exact findCharFromAux_ge ' ' (cs.drop (p - half)) (p - half) sp hf
      dsimp only
      by_cases hsp : sp < p
      · rw [if_pos hsp]
        exact ⟨by omega, by omega⟩
      · rw [if_neg hsp]
        exact ⟨by omega, by omega⟩
  · rw [if_neg h0]
    exact ⟨by omega, by omega⟩

lemma snippetEnd_spec (cs : List Char) (p half L : Nat) (hL : L ≤ half)
    (hfit : p + L ≤ cs.length)
    (hsp : ∀ i, p < i → i < p + L → ¬(cs[i]? = some ' ')) :
    p + L ≤ snippetEnd cs p half ∧ snippetEnd cs p half ≤ cs.length ∧
      snippetEnd cs p half ≤ p + half := by
  rw [snippetEnd]
  have hm1 : min cs.length (p + half) ≤ cs.length := Nat.min_le_left _ _
  have hm2 : min cs.length (p + half) ≤ p + half := Nat.min_le_right _ _
  have hm3 : p + L ≤ min cs.length (p + half) := le_min hfit (by omega)
  by_cases hcond : min cs.length (p + half) < cs.length
  · rw [if_pos hcond]
    cases hlast : lastIndexOfCharUpto ' ' (min cs.length (p + half)) cs with
    | none => exact ⟨hm3, hm1, hm2⟩
    | some sp =>
      dsimp only
      obtain ⟨hs1, hs2, hs3⟩ := lastIndexOfCharUpto_spec ' ' _ cs sp hlast
      by_cases hps : p < sp
      · rw [if_pos hps]
        have hnot : ¬(sp < p + L) := fun hlt => hsp sp hps hlt hs3
        exact ⟨by omega, by omega, by omega⟩
      · rw [if_neg hps]
        exact ⟨hm3, hm1, hm2⟩
  · rw [if_neg hcond]
    exact ⟨hm3, hm1, hm2⟩

lemma no_space_in_match (cs t : List Char) (p : Nat)
    (hpre : t.isPrefixOf ((lowerList cs).drop p) = true)
    (hws : ∀ c ∈ t, wsChar c = false) :
    ∀ i, p < i → i < p + t.length → ¬(cs[i]? = some ' ') := by
  intro i hi1 hi2 hspace
  obtain ⟨u, hu⟩ := List.isPrefixOf_iff_prefix.mp hpre
  have h1 : (lowerList cs)[i]? = some ' ' := by
    rw [lowerList, List.getElem?_map, hspace]
    rfl
  have h2 : ((lowerList cs).drop p)[i - p]? = some ' ' := by
    rw [List.getElem?_drop]
    have he : p + (i - p) = i := by omega
    rw [he]
    exact h1
  rw [← hu, List.getElem?_append, if_pos (by omega)] at h2
  have h3 : (' ' : Char) ∈ t := List.getElem?_mem h2
  have h4 := hws ' ' h3
  simp [wsChar] at h4

lemma isPrefixOf_take (t xs : List Char) (m : Nat) (h : t.isPrefixOf xs = true)
    (hm : t.length ≤ m) : t.isPrefixOf (xs.take m) = true := by
  obtain ⟨u, hu⟩ := List.isPrefixOf_iff_prefix.mp h
  rw [List.isPrefixOf_iff_prefix, ← hu, List.take_append_eq_append_take,
    List.take_all_of_le hm]
  exact ⟨_, rfl⟩

lemma containsSub_of_prefix_drop (t : List Char) :
    ∀ (xs : List Char) (k : Nat), t.isPrefixOf (xs.drop k) = true → containsSub t xs = true
  | [], _, h => by
    simp only [List.drop_nil] at h
    cases t with
    | nil => rfl
    | cons c cs => exact absurd h (by simp [List.isPrefixOf])
  | x :: xs, 0, h => by
    rw [List.drop_zero] at h
    rw [containsSub, h, Bool.true_or]
  | x :: xs, k + 1, h => by
    rw [List.drop_succ_cons] at h
    rw [containsSub, containsSub_of_prefix_drop t xs k h, Bool.or_true]

lemma prefix_window (t cs : List Char) (a b p : Nat) (h1 : a ≤ p)
    (h2 : p + t.length ≤ b) (hpre : t.isPrefixOf (cs.drop p) = true) :
    containsSub t ((cs.drop a).take (b - a)) = true := by
  apply containsSub_of_prefix_drop t _ (p - a)
  have e2 : (cs.drop a).drop (p - a) = cs.drop p := by
    rw [List.drop_drop]
    congr 1
    omega
  have e1 : ((cs.drop a).take (b - a)).drop (p - a) = (cs.drop p).take (b - p) := by
    rw [List.drop_take, e2]
    congr 1
    omega
  rw [e1]
  exact isPrefixOf_take t _ (b - p) hpre (by omega)

lemma toList_append (a b : String) : (a ++ b).toList = a.toList ++ b.toList := by
  cases a with
  | mk da => cases b with
    | mk db => rfl

/-- Claim C9 (amended): for a text query whose best matching term occurs in the
body, the snippet is, between its ellipsis markers, a contiguous window of the
original body of at most 200 characters, and it contains the matched term
whenever that term is no longer than the half-window of 100 characters (a term
longer than 100 characters is cut, see the counterexample); when no query term
occurs in the body, the snippet is the leading window of the body. -/
theorem snippet_containment (content query : String) (t : List Char) (p : Nat)
    (hbp : bestMatchPos (lowerList content.toList) (snippetTerms query.toList) = some p)
    (ht : t ∈ snippetTerms query.toList)
    (hat : indexOfSub t (lowerList content.toList) = some p)
    (hlen : t.length ≤ 100) :
    (∃ a b, a ≤ p ∧ p + t.length ≤ b ∧ b ≤ content.toList.length ∧ b - a ≤ 200 ∧
      (extractSnippet content query 200).toList
        = ellipsisIf (0 < a) ++ (content.toList.drop a).take (b - a)
            ++ ellipsisIf (b < content.toList.length) ∧
      containsSub t (lowerList ((content.toList.drop a).take (b - a))) = true) ∧
    (∀ c2 q2 : String,
      bestMatchPos (lowerList c2.toList) (snippetTerms q2.toList) = none →
      extractSnippet c2 q2 200
        = String.mk (c2.toList.take 200)
            ++ (if 200 < c2.toList.length then "..." else "")) := by
  constructor
  · have hspec := indexOfSub_spec t (lowerList content.toList) p hat
    have hlenlc : (lowerList content.toList).length = content.toList.length := by
      rw [lowerList, List.length_map]
    have hfit : p + t.length ≤ content.toList.length := by
      rw [← hlenlc]
      exact hspec.1
    have hws := snippetTerms_no_ws query.toList t ht
    have hnsp := no_space_in_match content.toList t p hspec.2 hws
    have h12 : (100 : Nat) = 200 / 2 := rfl
    obtain ⟨hs1, hs2⟩ := snippetStart_spec content.toList p (200 / 2)
    obtain ⟨he1, he2, he3⟩ := snippetEnd_spec content.toList p (200 / 2) t.length
      (by rw [← h12]; exact hlen) hfit hnsp
    refine ⟨snippetStart content.toList p (200 / 2), snippetEnd content.toList p (200 / 2),
      hs1, he1, he2, by omega, ?_, ?_⟩
    · rw [extractSnippet]
      rw [hbp]
      dsimp only
      rw [snippetWindow]
      dsimp only
      by_cases hlt : snippetEnd content.toList p (200 / 2) < content.toList.length
      · rw [if_pos hlt]
        by_cases hgt : 0 < snippetStart content.toList p (200 / 2)
        · rw [if_pos hgt, toList_append, toList_append, ellipsisIf, ellipsisIf,
            if_pos hgt, if_pos hlt, List.append_assoc]
          rfl
        · rw [if_neg hgt, toList_append, ellipsisIf, ellipsisIf, if_neg hgt, if_pos hlt,
            List.nil_append]
          rfl
      · rw [if_neg hlt]
        by_cases hgt : 0 < snippetStart content.toList p (200 / 2)
        · rw [if_pos hgt, toList_append, ellipsisIf, ellipsisIf, if_pos hgt, if_neg hlt,
            List.append_nil]
          rfl
        · rw [if_neg hgt, ellipsisIf, ellipsisIf, if_neg hgt, if_neg hlt,
            List.nil_append, List.append_nil]
          rfl
    · have hwin : lowerList ((content.toList.drop (snippetStart content.toList p (200 / 2))).take
          (snippetEnd content.toList p (200 / 2) - snippetStart content.toList p (200 / 2)))
          = (((lowerList content.toList).drop (snippetStart content.toList p (200 / 2))).take
            (snippetEnd content.toList p (200 / 2) - snippetStart content.toList p (200 / 2))) := by
        rw [lowerList, lowerList, List.map_take, List.map_drop]
      rw [hwin]
      exact prefix_window t (lowerList content.toList) _ _ p hs1 he1 hspec.2
  · intro c2 q2 hnone
    rw [extractSnippet, hnone]

set_option maxRecDepth 20000 in
/-- Claim C9, counterexample to the claim as stated: a 150-character query term
matching the body at position 0 exceeds the 100-character half-window, and the
returned snippet (the first 100 characters plus an ellipsis) does not contain
the matched term. -/
theorem snippet_drops_long_term_ce :
    indexOfSub (lowerList longA.toList) (lowerList longA.toList) = some 0 ∧
    (lowerList longA.toList) ∈ snippetTerms longA.toList ∧
    containsSub (lowerList longA.toList)
      (lowerList (extractSnippet longA longA 200).toList) = false := by
  refine ⟨rfl, ?_, rfl⟩
  have h : snippetTerms longA.toList = [lowerList longA.toList] := rfl
  rw [h]
  exact List.mem_singleton.mpr rfl

set_option maxRecDepth 20000 in
theorem snippet_containment_witness :
    ∃ a b, a ≤ 6 ∧ 6 + ("hannah".toList).length ≤ b ∧
      b ≤ ("hello hannah world".toList).length ∧ b - a ≤ 200 ∧
      (extractSnippet "hello hannah world" "hannah" 200).toList
        = ellipsisIf (0 < a) ++ (("hello hannah world".toList).drop a).take (b - a)
            ++ ellipsisIf (b < ("hello hannah world".toList).length) ∧
      containsSub "hannah".toList
        (lowerList ((("hello hannah world".toList).drop a).take (b - a))) = true :=
  (snippet_containment "hello hannah world" "hannah" "hannah".toList 6 rfl
    (by have h : snippetTerms ("hannah" : String).toList = ["hannah".toList] := rfl
        rw [h]
        exact List.mem_singleton.mpr rfl)
    rfl (by decide)).1

end BetterNotes
